import Mathlib

/- Spec2Proof.lean

   A verification development for the endpoint-rotation and stream-selection
   core of a browser media client (`script.js`).  The JavaScript core is
   shallowly embedded as executable Lean definitions:

   * the variant selector (`pickBestMp4`, `pickBestAudio`, script.js 126-134),
     with JavaScript's stable `Array.prototype.sort` embedded as a stable
     insertion sort (a stable sort is uniquely determined by its comparator);
   * the video-id normalizer (`getVideoId`, script.js 80-93), with the
     browser's WHATWG `URL` constructor modelled for canonical absolute
     http(s) URLs (scheme `http://`/`https://`, no userinfo, no percent
     escapes, no backslashes or dot segments) and the literal regular
     expression `YT_RE` implemented directly as a scanner;
   * the mirror-rotation protocol (`chooseAPI`, `apiFetchJSON`, script.js
     17-58), with the module-level mutable state made an explicit record,
     network responses supplied by oracle functions, and the requests the
     code issues recorded in an explicit event trace.  `Promise.all` over
     probes that each catch their own failure is embedded as the list of
     individual probe outcomes in array (probe) order.
-/

/-! ### Generic list helpers -/

/-- `startsWithList needle hay`: `needle` is a prefix of `hay`
    (character-exact).  Helper for the substring test below. -/
def startsWithList : List Char → List Char → Bool
  | [], _ => true
  | _ :: _, [] => false
  | a :: as, b :: bs => a == b && startsWithList as bs

/-- `containsList needle hay`: `needle` occurs as a contiguous substring of
    `hay`.  Embeds JavaScript `String.prototype.includes` (and, after
    lowercasing the subject, the regex test `/mp4/i.test(...)`). -/
def containsList (needle : List Char) : List Char → Bool
  | [] => startsWithList needle []
  | c :: rest => startsWithList needle (c :: rest) || containsList needle rest

/-! ### Stream descriptors and the variant selector (script.js 122-134) -/

/-- One downloadable stream variant as delivered by the upstream metadata
    document: `container`/`mimeType`/`quality` are consulted for muxed
    entries, `bitrate` for audio entries.  Absent JSON fields are `none`. -/
structure StreamDesc where
  container : Option String := none
  mimeType : Option String := none
  quality : Option Int := none
  bitrate : Option Int := none
  url : Option String := none
  deriving DecidableEq, Repr

/-- JavaScript truthy-or on an optional string: `a || dflt`, where `null`,
    `undefined` and `""` are falsy. -/
def truthyOr (a : Option String) (dflt : String) : String :=
  match a with
  | none => dflt
  | some x => if x = "" then dflt else x

/-- The container/mime hint `s.container || s.mimeType || ""` consulted by
    `pickBestMp4` (script.js 128). -/
def hintOf (s : StreamDesc) : String :=
  truthyOr s.container (truthyOr s.mimeType "")

/-- `/mp4/i.test(s.container || s.mimeType || "")`: case-insensitive
    substring test for `"mp4"` (script.js 128). -/
def mp4Test (s : StreamDesc) : Bool :=
  containsList "mp4".toList ((hintOf s).toList.map Char.toLower)

/-- `parseInt(s.quality ?? 0)`: the quality indicator, missing treated
    as 0 (script.js 129). -/
def qualityVal (s : StreamDesc) : Int := s.quality.getD 0

/-- `parseInt(s.bitrate || 0)`: the bitrate, missing treated as 0
    (script.js 133; `0` is already falsy, so `||` and `??` agree). -/
def bitrateVal (s : StreamDesc) : Int := s.bitrate.getD 0

/-- Insert `x` into a descending-sorted list, before the first element whose
    key is ≤ `key x`.  Auxiliary step of the stable sort below. -/
def insertDesc {α : Type} (key : α → Int) (x : α) : List α → List α
  | [] => [x]
  | y :: ys => if key y ≤ key x then x :: y :: ys else y :: insertDesc key x ys

/-- Stable descending sort by `key`.  Embeds JavaScript
    `Array.prototype.sort` with comparator `(a, b) => key b - key a`:
    the ECMAScript sort is required to be stable, and a stable sort is
    uniquely determined by the comparator, so stable insertion sort yields
    the identical list. -/
def sortDesc {α : Type} (key : α → Int) : List α → List α
  | [] => []
  | x :: xs => insertDesc key x (sortDesc key xs)

/-- The first element of a list attaining the maximum key (ties broken
    towards the earlier element) — the reference characterisation of
    "stable descending sort, then take the head". -/
def firstMaxBy {α : Type} (key : α → Int) : List α → Option α
  | [] => none
  | x :: xs =>
    match firstMaxBy key xs with
    | none => some x
    | some m => if key x < key m then some m else some x

/-- `pickBestMp4` (script.js 126-131): filter to descriptors whose
    container/mime hint contains `"mp4"` case-insensitively, stable-sort the
    matches descending by quality and take the first; if there is none, fall
    back to the first descriptor of the unfiltered input, else nothing
    (`candidates[0] || muxed[0] || null`; descriptors are always truthy). -/
def pickBestMp4 (muxed : List StreamDesc) : Option StreamDesc :=
  match (sortDesc qualityVal (muxed.filter mp4Test)).head? with
  | some c => some c
  | none => muxed.head?

/-- `pickBestAudio` (script.js 132-134): stable-sort all descriptors
    descending by bitrate and take the first, else nothing
    (`[...audios].sort(...)[0] || null`). -/
def pickBestAudio (audios : List StreamDesc) : Option StreamDesc :=
  (sortDesc bitrateVal audios).head?

/-- The `muxedStreams` entry `{container: "webm", quality: 1080}` of the
    spec's end-to-end scenario about container filtering. -/
def webm1080 : StreamDesc := { container := some "webm", quality := some 1080 }

/-- The `muxedStreams` entry `{container: "mp4", quality: 720}` of the
    spec's end-to-end scenario about container filtering. -/
def mp4720 : StreamDesc := { container := some "mp4", quality := some 720 }

/-- An audio descriptor with bitrate 128, used to instantiate witnesses. -/
def aud128 : StreamDesc := { bitrate := some 128 }

/-! ### Mirror rotation state and the failover protocol (script.js 9-58) -/

/-- The module-level mutable rotation state of script.js:
    `currentAPIIndex` (line 17) and `lastHealthyAPI` (line 18). -/
structure RotState where
  currentAPIIndex : Nat
  lastHealthyAPI : Option String
  deriving DecidableEq, Repr

/-- A request issued on the network, recorded in a trace: a HEAD health
    probe against a mirror, or a real data request against a mirror. -/
inductive NetEvent where
  | probe (base : String)
  | fetchReq (base : String)
  deriving DecidableEq, Repr

/-- Errors surfaced by the protocol: the `chooseAPI` failure "All public API
    instances seem offline or blocked." (line 36), the `apiFetchJSON`
    failure `API error N` (lines 47/55), and an uncaught network rejection
    of the second real request. -/
inductive JsError where
  | allOffline
  | apiError (status : Nat)
  | netError
  deriving DecidableEq, Repr

/-- `r.ok` of the Fetch API: the status is in the inclusive range 200-299. -/
def httpOk (status : Nat) : Bool := 200 ≤ status && status ≤ 299

/-- A probe outcome is healthy when the HEAD request resolved with
    `r.ok || r.status === 404` (line 30); a rejected request (`none`) was
    mapped to `null` by the `.catch` (line 31). -/
def healthyProbe (res : Option Nat) : Bool :=
  match res with
  | none => false
  | some status => httpOk status || status == 404

/-- The mirrors in probe order:
    `PIPED_APIS[(currentAPIIndex + i) % PIPED_APIS.length]` for
    `i = 0 .. length-1` (script.js 26-27). -/
def rotatedBases (apis : List String) (cursor : Nat) : List String :=
  (List.range apis.length).map (fun i => apis.getD ((cursor + i) % apis.length) "")

/-- The settled outcomes of the probe batch, in array (probe) order: each
    entry is the mirror when its probe was healthy, otherwise null
    (script.js 28-32; `Promise.all` preserves array order and, since every
    probe catches its own rejection, never short-circuits). -/
def probeResults (apis : List String) (probe : String → Option Nat) (cursor : Nat) :
    List (Option String) :=
  (rotatedBases apis cursor).map
    (fun base => if healthyProbe (probe base) then some base else none)

/-- `results.find(Boolean)` (script.js 35): the first non-null entry in
    array order. -/
def firstHealthyByListOrder (results : List (Option String)) : Option String :=
  (results.filterMap id).head?

/-- Refinement target following the spec's words, not the code: "the first
    healthy result found (by completion, not by list order)" — the first
    healthy entry when the settled outcomes are read in the completion
    order `order` (a permutation of the indices). -/
def specFirstHealthyBySettlement (results : List (Option String)) (order : List Nat) :
    Option String :=
  (order.filterMap (fun i => results.getD i none)).head?

/-- `markHealthy` of the spec's health cache: the assignment
    `lastHealthyAPI = endpoint` (script.js 37 caches the winning mirror). -/
def markHealthy (s : RotState) (endpoint : String) : RotState :=
  { s with lastHealthyAPI := some endpoint }

/-- `markUnhealthy` of the spec's health cache: `lastHealthyAPI = null;
    currentAPIIndex = (currentAPIIndex + 1) % PIPED_APIS.length`
    (script.js 51-52); `n` is the mirror count. -/
def markUnhealthy (n : Nat) (s : RotState) : RotState :=
  { currentAPIIndex := (s.currentAPIIndex + 1) % n, lastHealthyAPI := none }

/-- `getCachedHealthy` of the spec's health cache: read `lastHealthyAPI`. -/
def getCachedHealthy (s : RotState) : Option String := s.lastHealthyAPI

/-- `chooseAPI` (script.js 21-40).  The network is an oracle `probe` giving
    each mirror's HEAD outcome (`none` = rejected, `some status` =
    resolved).  Returns the result, the updated module state, and the trace
    of requests issued: nothing when the cache answers, otherwise one probe
    per configured mirror; on success the winner is cached and the cursor
    set to its index in the configured list (lines 37-38). -/
def chooseAPI (apis : List String) (probe : String → Option Nat) (s : RotState) :
    Except JsError String × RotState × List NetEvent :=
  match s.lastHealthyAPI with
  | some b => (Except.ok b, s, [])
  | none =>
    match firstHealthyByListOrder (probeResults apis probe s.currentAPIIndex) with
    | none => (Except.error JsError.allOffline, s,
        (rotatedBases apis s.currentAPIIndex).map NetEvent.probe)
    | some b => (Except.ok b,
        { currentAPIIndex := apis.indexOf b, lastHealthyAPI := some b },
        (rotatedBases apis s.currentAPIIndex).map NetEvent.probe)

/-- The `catch` block of `apiFetchJSON` (script.js 49-57): clear the cache
    and advance the cursor, resolve once more, retry the real request once,
    and propagate any failure.  `fetch2` is the oracle for the second real
    request (`none` = network rejection, `some (status, body)` = response);
    `ev` is the trace accumulated by the failed first attempt. -/
def retryOnce {β : Type} (apis : List String) (probe2 : String → Option Nat)
    (fetch2 : String → Option (Nat × β)) (s : RotState) (ev : List NetEvent) :
    Except JsError β × RotState × List NetEvent :=
  match chooseAPI apis probe2 (markUnhealthy apis.length s) with
  | (Except.error _, s3, ev2) => (Except.error JsError.allOffline, s3, ev ++ ev2)
  | (Except.ok base2, s3, ev2) =>
    match fetch2 base2 with
    | none => (Except.error JsError.netError, s3, ev ++ ev2 ++ [NetEvent.fetchReq base2])
    | some (status, body) =>
      if httpOk status then (Except.ok body, s3, ev ++ ev2 ++ [NetEvent.fetchReq base2])
      else (Except.error (JsError.apiError status), s3, ev ++ ev2 ++ [NetEvent.fetchReq base2])

/-- `apiFetchJSON` (script.js 43-58): resolve an endpoint and issue the real
    request; on any failure of the first attempt (resolution error, network
    rejection, or non-2xx status) run the single rotate-and-retry of the
    `catch` block.  `probe1`/`fetch1` are the network oracles seen by the
    first attempt, `probe2`/`fetch2` those seen by the retry. -/
def apiFetchJSON {β : Type} (apis : List String)
    (probe1 probe2 : String → Option Nat)
    (fetch1 fetch2 : String → Option (Nat × β)) (s : RotState) :
    Except JsError β × RotState × List NetEvent :=
  match chooseAPI apis probe1 s with
  | (Except.error _, s1, ev1) => retryOnce apis probe2 fetch2 s1 ev1
  | (Except.ok base, s1, ev1) =>
    match fetch1 base with
    | none => retryOnce apis probe2 fetch2 s1 (ev1 ++ [NetEvent.fetchReq base])
    | some (status, body) =>
      if httpOk status then (Except.ok body, s1, ev1 ++ [NetEvent.fetchReq base])
      else retryOnce apis probe2 fetch2 s1 (ev1 ++ [NetEvent.fetchReq base])

/-- A health-cache operation, for stating the cache state machine of the
    spec. -/
inductive CacheOp where
  | markH (endpoint : String)
  | markU
  deriving DecidableEq, Repr

/-- Apply one health-cache operation (`n` is the mirror count). -/
def applyOp (n : Nat) (s : RotState) : CacheOp → RotState
  | CacheOp.markH b => markHealthy s b
  | CacheOp.markU => markUnhealthy n s

/-- Apply a sequence of health-cache operations. -/
def applyOps (n : Nat) (s : RotState) (ops : List CacheOp) : RotState :=
  ops.foldl (applyOp n) s

/-- The number of real data requests in a trace. -/
def fetchCount (evs : List NetEvent) : Nat :=
  (evs.filter (fun e => match e with | NetEvent.fetchReq _ => true | _ => false)).length

/-! ### Video-id extraction (script.js 80-93) -/

/-- The character class `[A-Za-z0-9_-]` of the identifier capture group of
    `YT_RE` (script.js 80-81). -/
def idChar (c : Char) : Bool := c.isAlphanum || c == '_' || c == '-'

/-- Characters this model accepts in a host name (letters, digits, dots,
    hyphens, underscores).  Hosts outside this class are outside the
    modelled domain of the URL parser below. -/
def hostChar (c : Char) : Bool := c.isAlphanum || c == '.' || c == '-' || c == '_'

/-- Strip a case-insensitive literal prefix (given lowercased), returning
    the remainder of the input. -/
def stripCI : List Char → List Char → Option (List Char)
  | [], cs => some cs
  | _ :: _, [] => none
  | p :: ps, c :: cs => if c.toLower == p then stripCI ps cs else none

/-- The literal `https://` as characters. -/
def httpsL : List Char := ['h', 't', 't', 'p', 's', ':', '/', '/']

/-- The literal `http://` as characters. -/
def httpL : List Char := ['h', 't', 't', 'p', ':', '/', '/']

/-- Strip the scheme of the modelled URL grammar — `https://` or `http://`,
    case-insensitively.  Also embeds the `https?:\/\/` head of `YT_RE`:
    trying the `s` branch first and falling back needs no backtracking. -/
def stripScheme (cs : List Char) : Option (List Char) :=
  match stripCI httpsL cs with
  | some rest => some rest
  | none => stripCI httpL cs

/-- End of the authority component: `/`, `?` or `#`. -/
def authEnd (c : Char) : Bool := c == '/' || c == '?' || c == '#'

/-- Host handling of the modelled URL parser: reject userinfo (`@`), allow
    a trailing numeric `:port`, require a nonempty host over `hostChar`,
    and lowercase it as the WHATWG parser normalises host names. -/
def parseHost (auth : List Char) : Option (List Char) :=
  if auth.contains '@' then none
  else
    let host := auth.takeWhile (fun c => !(c == ':'))
    let port := (auth.dropWhile (fun c => !(c == ':'))).drop 1
    if host.isEmpty then none
    else if !(host.all hostChar) then none
    else if !(port.all Char.isDigit) then none
    else some (host.map Char.toLower)

/-- Split what follows the authority into the pathname (with its leading
    slash, `/` when absent) and the query (the text between `?` and the
    fragment or end). -/
def splitPathQuery (cs : List Char) : List Char × List Char :=
  match cs with
  | '/' :: _ =>
    let path := cs.takeWhile (fun c => !(c == '?' || c == '#'))
    match cs.dropWhile (fun c => !(c == '?' || c == '#')) with
    | '?' :: qcs => (path, qcs.takeWhile (fun c => !(c == '#')))
    | _ => (path, [])
  | '?' :: qcs => (['/'], qcs.takeWhile (fun c => !(c == '#')))
  | _ => (['/'], [])

/-- The components of a parsed URL that the normalizer consults:
    `hostname` (lowercased), `pathname` (with leading slash), raw query. -/
structure URLParts where
  hostname : List Char
  pathname : List Char
  query : List Char
  deriving DecidableEq, Repr

/-- Strip leading and trailing whitespace, as the WHATWG URL parser strips
    leading and trailing C0 controls and spaces from its input. -/
def trimList (cs : List Char) : List Char :=
  ((cs.dropWhile Char.isWhitespace).reverse.dropWhile Char.isWhitespace).reverse

/-- Model of the browser URL constructor `new URL(url)` (script.js 85),
    restricted to canonical absolute http(s) URLs: `http://` or `https://`,
    an authority without userinfo over `hostChar` with an optional numeric
    port, then path, query and fragment.  Exotic WHATWG lenience (missing
    slashes after the scheme, backslashes, percent escapes, tabs or
    newlines inside the URL, IPv6 hosts, dot-segment normalisation) is
    outside the modelled domain and parses as `none` here. -/
def parseURLL (cs : List Char) : Option URLParts :=
  let t := trimList cs
  match stripScheme t with
  | none => none
  | some rest =>
    match parseHost (rest.takeWhile (fun c => !(authEnd c))) with
    | none => none
    | some host =>
      let pq := splitPathQuery (rest.dropWhile (fun c => !(authEnd c)))
      some { hostname := host, pathname := pq.1, query := pq.2 }

/-- `new URL` on a string input. -/
def parseURL (url : String) : Option URLParts := parseURLL url.toList

/-- One step of splitting a query on `&`: push the character onto the
    current pair, or start a new pair at a separator. -/
def ampStep (c : Char) (acc : List (List Char)) : List (List Char) :=
  match acc with
  | [] => [[c]]
  | cur :: rest => if c == '&' then [] :: cur :: rest else (c :: cur) :: rest

/-- Split a query on `&` into raw pairs (the pair splitting of
    `URLSearchParams`). -/
def splitOnAmp (q : List Char) : List (List Char) :=
  q.foldr ampStep [[]]

/-- `u.searchParams.get(name)` (script.js 87), restricted to queries
    without percent or plus escapes: the value of the first nonempty
    `name=value` pair (`""` when the pair has no `=`), else nothing. -/
def getParam (q : List Char) (name : List Char) : Option (List Char) :=
  ((splitOnAmp q).filter (fun p => !p.isEmpty)).findSome?
    (fun p =>
      if p.takeWhile (fun c => !(c == '=')) = name
      then some ((p.dropWhile (fun c => !(c == '='))).drop 1)
      else none)

/-- Greedy capture of the `YT_RE` identifier group `([A-Za-z0-9_\-]{6,})`:
    the maximal run of id characters, accepted when at least 6 long. -/
def captureId (cs : List Char) : Option (List Char) :=
  let run := cs.takeWhile idChar
  if run.length < 6 then none else some run

/-- The optional `(www\.)?` group of `YT_RE`: consume a case-insensitive
    `www.` when present (no backtracking needed, see `matchYtAt`). -/
def skipWww (cs : List Char) : List Char :=
  match stripCI "www.".toList cs with
  | some r => r
  | none => cs

/-- Match `YT_RE` at the start of `cs`:
    `https?:\/\/(www\.)?(youtube\.com\/watch\?v=|youtu\.be\/)([A-Za-z0-9_\-]{6,})`
    case-insensitively, returning capture group 3.  The optional `www.`
    needs no backtracking: when it matches, the input starts with `w`, so
    the `y...`-alternatives cannot match at the unconsumed position. -/
def matchYtAt (cs : List Char) : Option (List Char) :=
  match stripScheme cs with
  | none => none
  | some r1 =>
    match stripCI "youtube.com/watch?v=".toList (skipWww r1) with
    | some r3 => captureId r3
    | none =>
      match stripCI "youtu.be/".toList (skipWww r1) with
      | some r3 => captureId r3
      | none => none

/-- `url.match(YT_RE)` restricted to capture group 3 (script.js 88-89):
    try the pattern at every position from the left and return the first
    match's capture. -/
def ytScan : List Char → Option (List Char)
  | [] => none
  | c :: rest =>
    match matchYtAt (c :: rest) with
    | some r => some r
    | none => ytScan rest

/-- The short-link domain `"youtu.be"` tested against the hostname with
    `String.prototype.includes` (script.js 86). -/
def youtuBeL : List Char := "youtu.be".toList

/-- `getVideoId` (script.js 83-93) on the character level: parse the URL;
    on a host containing the short-link domain return the pathname minus
    its leading slash (`u.pathname.slice(1)`); else return a nonempty `v`
    query parameter; else scan the raw input with `YT_RE`; a URL parse
    failure is caught and returns nothing — the regex is not consulted on
    that path. -/
def getVideoIdL (cs : List Char) : Option (List Char) :=
  match parseURLL cs with
  | none => none
  | some u =>
    if containsList youtuBeL u.hostname then some (u.pathname.drop 1)
    else
      match getParam u.query ['v'] with
      | some v => if v.isEmpty then ytScan cs else some v
      | none => ytScan cs

/-- `getVideoId` on strings (script.js 83-93). -/
def getVideoId (url : String) : Option String :=
  (getVideoIdL url.toList).map List.asString

/-! ### Lemmas about the stable sort -/

theorem insertDesc_head? {α : Type} (key : α → Int) (x : α) (l : List α) :
    (insertDesc key x l).head? =
      match l.head? with
      | none => some x
      | some y => if key y ≤ key x then some x else some y := by
  cases l with
  | nil => rfl
  | cons y ys =>
    by_cases h : key y ≤ key x <;> simp [insertDesc, h]

theorem firstMaxBy_eq_none_iff {α : Type} (key : α → Int) (l : List α) :
    firstMaxBy key l = none ↔ l = [] := by
  cases l with
  | nil => simp [firstMaxBy]
  | cons x xs =>
    simp only [firstMaxBy]
    cases h : firstMaxBy key xs with
    | none => simp
    | some m =>
      by_cases hk : key x < key m <;> simp [hk]

theorem sortDesc_head? {α : Type} (key : α → Int) (l : List α) :
    (sortDesc key l).head? = firstMaxBy key l := by
  induction l with
  | nil => rfl
  | cons x xs ih =>
    simp only [sortDesc, insertDesc_head?, ih, firstMaxBy]
    cases h : firstMaxBy key xs with
    | none => simp
    | some m =>
      by_cases hk : key x < key m
      · have h2 : ¬ key m ≤ key x := by omega
        simp [hk, h2]
      · have h2 : key m ≤ key x := by omega
        simp [hk, h2]

theorem firstMaxBy_mem_max {α : Type} (key : α → Int) (l : List α) (b : α)
    (h : firstMaxBy key l = some b) : b ∈ l ∧ ∀ x ∈ l, key x ≤ key b := by
  induction l generalizing b with
  | nil => simp [firstMaxBy] at h
  | cons x xs ih =>
    cases hx : firstMaxBy key xs with
    | none =>
      simp only [firstMaxBy, hx] at h
      have hnil : xs = [] := (firstMaxBy_eq_none_iff key xs).mp hx
      cases h
      subst hnil
      simp
    | some m =>
      simp only [firstMaxBy, hx] at h
      obtain ⟨hm, hmax⟩ := ih m hx
      by_cases hk : key x < key m
      · rw [if_pos hk] at h
        cases h
        exact ⟨List.mem_cons_of_mem _ hm,
          by
            intro y hy
            rcases List.mem_cons.mp hy with hy | hy
            · subst hy; omega
            · exact hmax y hy⟩
      · rw [if_neg hk] at h
        cases h
        refine ⟨List.mem_cons_self _ _, ?_⟩
        intro y hy
        rcases List.mem_cons.mp hy with hy | hy
        · subst hy; omega
        · have := hmax y hy; omega

theorem firstMaxBy_const {α : Type} (key : α → Int) (l : List α) (c : Int)
    (h : ∀ x ∈ l, key x = c) : firstMaxBy key l = l.head? := by
  induction l with
  | nil => rfl
  | cons x xs ih =>
    simp only [firstMaxBy]
    cases hx : firstMaxBy key xs with
    | none => rfl
    | some m =>
      have hm : m ∈ xs := (firstMaxBy_mem_max key xs m hx).1
      have h1 : key x = c := h x (List.mem_cons_self _ _)
      have h2 : key m = c := h m (List.mem_cons_of_mem _ hm)
      have : ¬ key x < key m := by omega
      simp [this]

/-! ### Claim theorems: variant selector -/

/-- C2: `pickBestMp4` filters to descriptors whose container/mime hint
    contains "mp4" case-insensitively, returns the filtered descriptor of
    highest quality (missing quality treated as 0, first on tie); with no
    filter match it returns the first descriptor of the unfiltered list; on
    the empty list it returns nothing; and on
    `[{container:"webm", quality:1080}, {container:"mp4", quality:720}]`
    it returns the mp4/720 descriptor. -/
theorem pickBestMp4_selects_filtered_max :
    pickBestMp4 [] = none
    ∧ pickBestMp4 [webm1080, mp4720] = some mp4720
    ∧ ∀ l : List StreamDesc,
        (l.filter mp4Test = [] → pickBestMp4 l = l.head?)
        ∧ (l.filter mp4Test ≠ [] →
            pickBestMp4 l = firstMaxBy qualityVal (l.filter mp4Test)
            ∧ ∃ b, pickBestMp4 l = some b ∧ b ∈ l.filter mp4Test
                ∧ ∀ x ∈ l.filter mp4Test, qualityVal x ≤ qualityVal b) := by
  refine ⟨rfl, by decide, ?_⟩
  intro l
  constructor
  · intro h
    simp [pickBestMp4, h, sortDesc]
  · intro h
    have hfm : firstMaxBy qualityVal (l.filter mp4Test) ≠ none := fun hn =>
      h ((firstMaxBy_eq_none_iff qualityVal _).mp hn)
    obtain ⟨b, hb⟩ := Option.ne_none_iff_exists'.mp hfm
    have hpick : pickBestMp4 l = some b := by
      simp [pickBestMp4, sortDesc_head?, hb]
    refine ⟨by rw [hpick, hb], b, hpick, ?_⟩
    exact firstMaxBy_mem_max qualityVal (l.filter mp4Test) b hb

/-- Witness for C2 at a concrete input with a nonempty filter match. -/
theorem pickBestMp4_selects_filtered_max_witness :
    pickBestMp4 [mp4720] = firstMaxBy qualityVal ([mp4720].filter mp4Test) :=
  ((pickBestMp4_selects_filtered_max.2.2 [mp4720]).2 (by decide)).1

/-- C9: `pickBestAudio` returns the descriptor of highest bitrate (missing
    bitrate treated as 0) with no container filtering; when every bitrate is
    missing it returns the first descriptor in input order; and on the empty
    list it returns nothing. -/
theorem pickBestAudio_selects_max_bitrate :
    pickBestAudio [] = none
    ∧ (∀ l : List StreamDesc, l ≠ [] →
        pickBestAudio l = firstMaxBy bitrateVal l
        ∧ ∃ b, pickBestAudio l = some b ∧ b ∈ l
            ∧ ∀ x ∈ l, bitrateVal x ≤ bitrateVal b)
    ∧ ∀ l : List StreamDesc, (∀ x ∈ l, x.bitrate = none) →
        pickBestAudio l = l.head? := by
  refine ⟨rfl, ?_, ?_⟩
  · intro l hl
    have hfm : firstMaxBy bitrateVal l ≠ none := fun hn =>
      hl ((firstMaxBy_eq_none_iff bitrateVal l).mp hn)
    obtain ⟨b, hb⟩ := Option.ne_none_iff_exists'.mp hfm
    have hpick : pickBestAudio l = some b := by
      simp [pickBestAudio, sortDesc_head?, hb]
    refine ⟨by rw [hpick, hb], b, hpick, ?_⟩
    exact firstMaxBy_mem_max bitrateVal l b hb
  · intro l hl
    have : ∀ x ∈ l, bitrateVal x = 0 := by
      intro x hx
      simp [bitrateVal, hl x hx]
    simp [pickBestAudio, sortDesc_head?, firstMaxBy_const bitrateVal l 0 this]

/-- Witness for C9 at a concrete nonempty input. -/
theorem pickBestAudio_selects_max_bitrate_witness :
    pickBestAudio [aud128] = firstMaxBy bitrateVal [aud128] :=
  (pickBestAudio_selects_max_bitrate.2.1 [aud128] (by decide)).1

/-! ### Lemmas about the rotation protocol -/

theorem mem_rotatedBases (apis : List String) (cursor : Nat) (b : String)
    (h : b ∈ rotatedBases apis cursor) : b ∈ apis := by
  simp only [rotatedBases, List.mem_map, List.mem_range] at h
  obtain ⟨i, hi, hb⟩ := h
  have hlen : 0 < apis.length := by
    rcases Nat.eq_zero_or_pos apis.length with h0 | h0
    · omega
    · exact h0
  have hlt : (cursor + i) % apis.length < apis.length := Nat.mod_lt _ hlen
  rw [List.getD_eq_getElem apis "" hlt] at hb
  rw [← hb]
  exact List.getElem_mem hlt

theorem firstHealthyByListOrder_eq_none (results : List (Option String))
    (h : ∀ x ∈ results, x = none) : firstHealthyByListOrder results = none := by
  have : results.filterMap id = [] := by
    rw [List.filterMap_eq_nil_iff]
    intro a ha
    rw [h a ha]
    rfl
  simp [firstHealthyByListOrder, this]

theorem firstHealthyByListOrder_map_char (bases : List String) (hfn : String → Bool)
    (b : String)
    (h : firstHealthyByListOrder (bases.map (fun x => if hfn x then some x else none))
          = some b) :
    ∃ k, k < bases.length ∧ bases.getD k "" = b ∧ hfn b = true
      ∧ ∀ j < k, hfn (bases.getD j "") = false := by
  induction bases with
  | nil => simp [firstHealthyByListOrder] at h
  | cons x xs ih =>
    by_cases hx : hfn x
    · simp only [List.map_cons, firstHealthyByListOrder, hx, if_pos,
        List.filterMap_cons, id] at h
      cases h
      exact ⟨0, by simp, by simp, hx, by omega⟩
    · simp only [List.map_cons, firstHealthyByListOrder, hx, if_neg,
        List.filterMap_cons, id] at h
      obtain ⟨k, hk, hb, hhb, hprev⟩ := ih h
      refine ⟨k + 1, by simpa using Nat.succ_lt_succ hk, by simpa using hb, hhb, ?_⟩
      intro j hj
      cases j with
      | zero => simpa using hx
      | succ j => simpa using hprev j (by omega)

theorem fetchCount_append (a b : List NetEvent) :
    fetchCount (a ++ b) = fetchCount a + fetchCount b := by
  simp [fetchCount, List.filter_append]

theorem fetchCount_probes (bases : List String) :
    fetchCount (bases.map NetEvent.probe) = 0 := by
  induction bases with
  | nil => rfl
  | cons x xs ih => simp [fetchCount, List.filter_cons, ← ih]

theorem chooseAPI_trace_probes (apis : List String) (probe : String → Option Nat)
    (s : RotState) : fetchCount (chooseAPI apis probe s).2.2 = 0 := by
  obtain ⟨ci, last⟩ := s
  cases last with
  | some b => rfl
  | none =>
    simp only [chooseAPI]
    cases firstHealthyByListOrder (probeResults apis probe ci) with
    | none => exact fetchCount_probes _
    | some b => exact fetchCount_probes _

theorem applyOps_keeps_cache (n : Nat) (X : String) (ops : List CacheOp)
    (h : ∀ o ∈ ops, o = CacheOp.markH X) :
    ∀ s : RotState, s.lastHealthyAPI = some X →
      getCachedHealthy (applyOps n s ops) = some X := by
  induction ops with
  | nil => intro s hs; simpa [applyOps, getCachedHealthy] using hs
  | cons o ops ih =>
    intro s hs
    have ho : o = CacheOp.markH X := h o (List.mem_cons_self _ _)
    subst ho
    have hrest : ∀ o ∈ ops, o = CacheOp.markH X := fun o hm =>
      h o (List.mem_cons_of_mem _ hm)
    have : applyOps n s (CacheOp.markH X :: ops) = applyOps n (markHealthy s X) ops := rfl
    rw [this]
    exact ih hrest (markHealthy s X) rfl

/-! ### Claim theorems: rotation protocol -/

/-- C4: the health-cache state machine: after `markHealthy X` the cached
    endpoint reads `X` and stays `X` until a `markUnhealthy` occurs
    (re-marking the same endpoint in between is harmless); after
    `markUnhealthy` the cache reads nothing and the rotation cursor has
    advanced by exactly one position modulo the mirror count. -/
theorem healthCache_state_machine :
    (∀ (n : Nat) (s : RotState) (X : String) (ops : List CacheOp),
        (∀ o ∈ ops, o = CacheOp.markH X) →
        getCachedHealthy (applyOps n (markHealthy s X) ops) = some X)
    ∧ (∀ (n : Nat) (s : RotState),
        getCachedHealthy (markUnhealthy n s) = none
        ∧ (markUnhealthy n s).currentAPIIndex = (s.currentAPIIndex + 1) % n) := by
  constructor
  · intro n s X ops hops
    exact applyOps_keeps_cache n X ops hops (markHealthy s X) rfl
  · intro n s
    exact ⟨rfl, rfl⟩

/-- Witness for C4 at a concrete state and operation sequence. -/
theorem healthCache_state_machine_witness :
    getCachedHealthy (applyOps 5 (markHealthy ⟨0, none⟩ "m") [CacheOp.markH "m"]) = some "m" :=
  healthCache_state_machine.1 5 ⟨0, none⟩ "m" [CacheOp.markH "m"] (by decide)

/-- C3: when nothing is cached and every configured mirror's probe is
    unhealthy (neither 2xx nor 404), `chooseAPI` fails with the all-offline
    error and returns the state unchanged — in particular no endpoint is
    marked healthy on the failure path. -/
theorem chooseAPI_all_fail :
    ∀ (apis : List String) (probe : String → Option Nat) (s : RotState),
      s.lastHealthyAPI = none →
      (∀ b ∈ apis, healthyProbe (probe b) = false) →
      (chooseAPI apis probe s).1 = Except.error JsError.allOffline
      ∧ (chooseAPI apis probe s).2.1 = s := by
  intro apis probe s hs hall
  have hres : ∀ x ∈ probeResults apis probe s.currentAPIIndex, x = none := by
    intro x hx
    simp only [probeResults, List.mem_map] at hx
    obtain ⟨base, hbase, hxeq⟩ := hx
    rw [hall base (mem_rotatedBases apis _ base hbase)] at hxeq
    simpa using hxeq.symm
  have hfh : firstHealthyByListOrder (probeResults apis probe s.currentAPIIndex) = none :=
    firstHealthyByListOrder_eq_none _ hres
  obtain ⟨ci, last⟩ := s
  cases hs
  simp [chooseAPI, hfh]

/-- Witness for C3 at a concrete mirror list whose probes all reject. -/
theorem chooseAPI_all_fail_witness :
    (chooseAPI ["a", "b"] (fun _ => none) ⟨0, none⟩).1 = Except.error JsError.allOffline
    ∧ (chooseAPI ["a", "b"] (fun _ => none) ⟨0, none⟩).2.1 = (⟨0, none⟩ : RotState) :=
  chooseAPI_all_fail ["a", "b"] (fun _ => none) ⟨0, none⟩ rfl (by decide)

/-- C10: when `chooseAPI` succeeds after a probe round (nothing cached), it
    caches the winner and sets the rotation cursor to the winner's index in
    the configured mirror list, so a subsequent `markUnhealthy` advances the
    cursor to the position immediately after the mirror that just failed. -/
theorem chooseAPI_sets_cursor_to_winner :
    ∀ (apis : List String) (probe : String → Option Nat) (s : RotState)
      (b : String) (s' : RotState) (ev : List NetEvent),
      s.lastHealthyAPI = none →
      chooseAPI apis probe s = (Except.ok b, s', ev) →
      s'.currentAPIIndex = apis.indexOf b
      ∧ s'.lastHealthyAPI = some b
      ∧ (markUnhealthy apis.length s').currentAPIIndex
          = (apis.indexOf b + 1) % apis.length := by
  intro apis probe s b s' ev hs heq
  obtain ⟨ci, last⟩ := s
  cases hs
  cases hfh : firstHealthyByListOrder (probeResults apis probe ci) with
  | none => simp [chooseAPI, hfh] at heq
  | some c =>
    simp only [chooseAPI, hfh] at heq
    obtain ⟨h1, h2, h3⟩ := Prod.mk.injEq .. |>.mp (heq.trans rfl) |>.imp id
      (fun h => Prod.mk.injEq .. |>.mp h)
    cases h1
    cases h2
    exact ⟨rfl, rfl, rfl⟩

/-- Witness for C10 at a concrete two-mirror configuration. -/
theorem chooseAPI_sets_cursor_to_winner_witness :
    (⟨0, some "a"⟩ : RotState).currentAPIIndex = (["a", "b"] : List String).indexOf "a"
    ∧ (⟨0, some "a"⟩ : RotState).lastHealthyAPI = some "a"
    ∧ (markUnhealthy (["a", "b"] : List String).length ⟨0, some "a"⟩).currentAPIIndex
        = ((["a", "b"] : List String).indexOf "a" + 1) % (["a", "b"] : List String).length :=
  chooseAPI_sets_cursor_to_winner ["a", "b"] (fun _ => some 200) ⟨0, none⟩ "a"
    ⟨0, some "a"⟩ [NetEvent.probe "a", NetEvent.probe "b"] rfl rfl

/-- C5 counterexample: with both mirrors healthy, the code returns the first
    healthy mirror in probe array order ("A"), while reading the settled
    outcomes in a completion order in which "B" settled first would return
    "B" — refuting "returns the first healthy result in
    completion/settlement order, not in list order". -/
theorem chooseAPI_not_settlement_order :
    (chooseAPI ["A", "B"] (fun _ => some 200) ⟨0, none⟩).1 = Except.ok "A"
    ∧ specFirstHealthyBySettlement
        (probeResults ["A", "B"] (fun _ => some 200) 0) [1, 0] = some "B"
    ∧ ("A" : String) ≠ "B" := by
  exact ⟨rfl, rfl, by decide⟩

/-- C5 amended: with nothing cached, `chooseAPI` probes every configured
    mirror (the full batch settles; an individual probe failure only
    contributes a null entry, it does not abort the batch) and returns and
    caches the first healthy outcome in probe array order — the rotated
    order starting at the cursor — independent of any completion order. -/
theorem chooseAPI_first_by_list_order :
    ∀ (apis : List String) (probe : String → Option Nat) (s : RotState) (b : String),
      s.lastHealthyAPI = none →
      firstHealthyByListOrder (probeResults apis probe s.currentAPIIndex) = some b →
      (chooseAPI apis probe s).1 = Except.ok b
      ∧ (chooseAPI apis probe s).2.1.lastHealthyAPI = some b
      ∧ (chooseAPI apis probe s).2.2
          = (rotatedBases apis s.currentAPIIndex).map NetEvent.probe
      ∧ ∃ k, k < (rotatedBases apis s.currentAPIIndex).length
          ∧ (rotatedBases apis s.currentAPIIndex).getD k "" = b
          ∧ healthyProbe (probe b) = true
          ∧ ∀ j < k,
              healthyProbe (probe ((rotatedBases apis s.currentAPIIndex).getD j "")) = false := by
  intro apis probe s b hs hfh
  obtain ⟨ci, last⟩ := s
  cases hs
  refine ⟨by simp [chooseAPI, hfh], by simp [chooseAPI, hfh], by simp [chooseAPI, hfh], ?_⟩
  have hfh2 : firstHealthyByListOrder
      ((rotatedBases apis ci).map
        (fun x => if healthyProbe (probe x) then some x else none)) = some b := hfh
  exact firstHealthyByListOrder_map_char (rotatedBases apis ci)
    (fun x => healthyProbe (probe x)) b hfh2

/-- Witness for the C5 amended theorem: first mirror's probe rejects, the
    second mirror wins. -/
theorem chooseAPI_first_by_list_order_witness :
    (chooseAPI ["A", "B"] (fun x => if x = "A" then none else some 200) ⟨0, none⟩).1
      = Except.ok "B"
    ∧ (chooseAPI ["A", "B"] (fun x => if x = "A" then none else some 200)
        ⟨0, none⟩).2.1.lastHealthyAPI = some "B"
    ∧ (chooseAPI ["A", "B"] (fun x => if x = "A" then none else some 200) ⟨0, none⟩).2.2
        = (rotatedBases ["A", "B"] (⟨0, none⟩ : RotState).currentAPIIndex).map NetEvent.probe
    ∧ ∃ k, k < (rotatedBases ["A", "B"] (⟨0, none⟩ : RotState).currentAPIIndex).length
        ∧ (rotatedBases ["A", "B"] (⟨0, none⟩ : RotState).currentAPIIndex).getD k "" = "B"
        ∧ healthyProbe ((fun x => if x = "A" then none else some 200) "B") = true
        ∧ ∀ j < k,
            healthyProbe ((fun x => if x = "A" then none else some 200)
              ((rotatedBases ["A", "B"]
                (⟨0, none⟩ : RotState).currentAPIIndex).getD j "")) = false :=
  chooseAPI_first_by_list_order ["A", "B"] (fun x => if x = "A" then none else some 200)
    ⟨0, none⟩ "B" rfl (by decide)

/-- C1: when the first resolution succeeded and the first real request
    failed (network rejection or non-2xx status), `apiFetchJSON` clears the
    cached endpoint and advances the rotation cursor, resolves an endpoint
    exactly once more, retries the request exactly once against it, and
    propagates any failure of that second attempt with no further attempts:
    the full trace contains exactly two real requests (one when even the
    second resolution fails, which the code surfaces as the all-offline
    error). -/
theorem apiFetchJSON_single_retry :
    ∀ (β : Type) (apis : List String) (probe1 probe2 : String → Option Nat)
      (fetch1 fetch2 : String → Option (Nat × β)) (s s1 : RotState)
      (base : String) (ev1 : List NetEvent),
      chooseAPI apis probe1 s = (Except.ok base, s1, ev1) →
      (fetch1 base = none
        ∨ ∃ st body, fetch1 base = some (st, body) ∧ httpOk st = false) →
      ((markUnhealthy apis.length s1).lastHealthyAPI = none
        ∧ (markUnhealthy apis.length s1).currentAPIIndex
            = (s1.currentAPIIndex + 1) % apis.length)
      ∧ (∀ (base2 : String) (s3 : RotState) (ev2 : List NetEvent),
          chooseAPI apis probe2 (markUnhealthy apis.length s1)
              = (Except.ok base2, s3, ev2) →
          apiFetchJSON apis probe1 probe2 fetch1 fetch2 s =
            ((match fetch2 base2 with
              | none => Except.error JsError.netError
              | some (st2, body2) =>
                if httpOk st2 then Except.ok body2
                else Except.error (JsError.apiError st2)),
             s3, ev1 ++ [NetEvent.fetchReq base] ++ ev2 ++ [NetEvent.fetchReq base2])
          ∧ fetchCount
              (ev1 ++ [NetEvent.fetchReq base] ++ ev2 ++ [NetEvent.fetchReq base2]) = 2)
      ∧ (∀ (s3 : RotState) (ev2 : List NetEvent) (e : JsError),
          chooseAPI apis probe2 (markUnhealthy apis.length s1)
              = (Except.error e, s3, ev2) →
          apiFetchJSON apis probe1 probe2 fetch1 fetch2 s =
            (Except.error JsError.allOffline, s3,
              ev1 ++ [NetEvent.fetchReq base] ++ ev2)
          ∧ fetchCount (ev1 ++ [NetEvent.fetchReq base] ++ ev2) = 1) := by
  intro β apis probe1 probe2 fetch1 fetch2 s s1 base ev1 hchoose hfail
  have hev1 : fetchCount ev1 = 0 := by
    have t1 := chooseAPI_trace_probes apis probe1 s
    rw [hchoose] at t1
    exact t1
  have hred : apiFetchJSON apis probe1 probe2 fetch1 fetch2 s
      = retryOnce apis probe2 fetch2 s1 (ev1 ++ [NetEvent.fetchReq base]) := by
    rcases hfail with hf | ⟨st, body, hf, hst⟩
    · simp [apiFetchJSON, hchoose, hf]
    · simp [apiFetchJSON, hchoose, hf, hst]
  refine ⟨⟨rfl, rfl⟩, ?_, ?_⟩
  · intro base2 s3 ev2 h2
    have hev2 : fetchCount ev2 = 0 := by
      have t2 := chooseAPI_trace_probes apis probe2 (markUnhealthy apis.length s1)
      rw [h2] at t2
      exact t2
    constructor
    · rw [hred]
      cases hf2 : fetch2 base2 with
      | none => simp [retryOnce, h2, hf2]
      | some p =>
        obtain ⟨st2, body2⟩ := p
        by_cases hok : httpOk st2 <;> simp [retryOnce, h2, hf2, hok]
    · simp only [fetchCount_append, hev1, hev2]
      rfl
  · intro s3 ev2 e h2
    have hev2 : fetchCount ev2 = 0 := by
      have t2 := chooseAPI_trace_probes apis probe2 (markUnhealthy apis.length s1)
      rw [h2] at t2
      exact t2
    constructor
    · rw [hred]
      simp [retryOnce, h2]
    · simp only [fetchCount_append, hev1, hev2]
      rfl

/-- Witness for C1: mirrors "a"/"b", the first request against "a" gets a
    500, the retry against "b" succeeds, with exactly two real requests. -/
theorem apiFetchJSON_single_retry_witness :
    apiFetchJSON ["a", "b"] (fun _ => some 200) (fun _ => some 200)
        (fun _ => some (500, (0 : Nat))) (fun _ => some (200, (7 : Nat))) ⟨0, none⟩
      = (Except.ok 7, ⟨1, some "b"⟩,
          [NetEvent.probe "a", NetEvent.probe "b", NetEvent.fetchReq "a",
           NetEvent.probe "b", NetEvent.probe "a", NetEvent.fetchReq "b"])
    ∧ fetchCount
        ([NetEvent.probe "a", NetEvent.probe "b"] ++ [NetEvent.fetchReq "a"]
          ++ [NetEvent.probe "b", NetEvent.probe "a"] ++ [NetEvent.fetchReq "b"]) = 2 := by
  have h := (apiFetchJSON_single_retry Nat ["a", "b"] (fun _ => some 200) (fun _ => some 200)
      (fun _ => some (500, (0 : Nat))) (fun _ => some (200, (7 : Nat))) ⟨0, none⟩
      ⟨0, some "a"⟩ "a" [NetEvent.probe "a", NetEvent.probe "b"] rfl
      (Or.inr ⟨500, 0, rfl, rfl⟩)).2.1 "b" ⟨1, some "b"⟩
      [NetEvent.probe "b", NetEvent.probe "a"] rfl
  exact ⟨h.1, h.2⟩

/-! ### Lemmas about characters, scanning and trimming -/

theorem pred_beq_false (f : Char → Bool) (c d : Char) (h : f c = true)
    (hd : f d = false) : (c == d) = false := by
  cases hbe : c == d with
  | false => rfl
  | true =>
    have he : c = d := eq_of_beq hbe
    rw [he, hd] at h
    cases h

theorem not_mem_of_pred (f : Char → Bool) (l : List Char) (d : Char)
    (h : ∀ c ∈ l, f c = true) (hd : f d = false) : d ∉ l := by
  intro hm
  rw [h d hm] at hd
  cases hd

theorem ws_char_cases (c : Char) (h : c.isWhitespace = true) :
    c = ' ' ∨ c = '\t' ∨ c = '\r' ∨ c = '\n' := by
  simp [Char.isWhitespace] at h
  tauto

theorem idChar_not_ws (c : Char) (h : idChar c = true) : c.isWhitespace = false := by
  cases hw : c.isWhitespace with
  | false => rfl
  | true =>
    rcases ws_char_cases c hw with h1 | h1 | h1 | h1 <;> subst h1 <;>
      exact absurd h (by decide)

theorem hostChar_not_ws (c : Char) (h : hostChar c = true) : c.isWhitespace = false := by
  cases hw : c.isWhitespace with
  | false => rfl
  | true =>
    rcases ws_char_cases c hw with h1 | h1 | h1 | h1 <;> subst h1 <;>
      exact absurd h (by decide)

theorem takeWhile_append_of_all (p : Char → Bool) (as bs : List Char)
    (h : ∀ a ∈ as, p a = true) :
    (as ++ bs).takeWhile p = as ++ bs.takeWhile p := by
  induction as with
  | nil => simp
  | cons a as ih => simp_all [List.takeWhile_cons]

theorem dropWhile_append_of_all (p : Char → Bool) (as bs : List Char)
    (h : ∀ a ∈ as, p a = true) :
    (as ++ bs).dropWhile p = bs.dropWhile p := by
  induction as with
  | nil => simp
  | cons a as ih => simp_all [List.dropWhile_cons]

theorem takeWhile_of_all (p : Char → Bool) (l : List Char)
    (h : ∀ a ∈ l, p a = true) : l.takeWhile p = l := by
  have h2 := takeWhile_append_of_all p l [] h
  simpa using h2

theorem dropWhile_of_all (p : Char → Bool) (l : List Char)
    (h : ∀ a ∈ l, p a = true) : l.dropWhile p = [] := by
  have h2 := dropWhile_append_of_all p l [] h
  simpa using h2

theorem dropWhile_ws_sandwich (w rest : List Char)
    (hw : ∀ c ∈ w, c.isWhitespace = true)
    (hr : rest = [] ∨ ∃ d ds, rest = d :: ds ∧ d.isWhitespace = false) :
    (w ++ rest).dropWhile Char.isWhitespace = rest := by
  rw [dropWhile_append_of_all _ w rest hw]
  rcases hr with h | ⟨d, ds, h, hd⟩
  · simp [h]
  · subst h
    exact List.dropWhile_cons_of_neg (by simp [hd])

theorem trimList_sandwich (w1 core w2 : List Char)
    (hw1 : ∀ c ∈ w1, c.isWhitespace = true)
    (hw2 : ∀ c ∈ w2, c.isWhitespace = true)
    (hne : core ≠ [])
    (hcore : ∀ c ∈ core, c.isWhitespace = false) :
    trimList (w1 ++ core ++ w2) = core := by
  obtain ⟨d, ds, hds⟩ : ∃ d ds, core = d :: ds := by
    cases core with
    | nil => exact absurd rfl hne
    | cons d ds => exact ⟨d, ds, rfl⟩
  have h1 : (w1 ++ core ++ w2).dropWhile Char.isWhitespace = core ++ w2 := by
    rw [List.append_assoc]
    refine dropWhile_ws_sandwich w1 (core ++ w2) hw1 ?_
    exact Or.inr ⟨d, ds ++ w2, by simp [hds], hcore d (by simp [hds])⟩
  obtain ⟨d2, ds2, h2⟩ : ∃ d2 ds2, core.reverse = d2 :: ds2 := by
    cases hr : core.reverse with
    | nil => exact absurd (by simpa using hr) hne
    | cons d2 ds2 => exact ⟨d2, ds2, rfl⟩
  have hd2 : d2.isWhitespace = false := by
    refine hcore d2 ?_
    have hm : d2 ∈ core.reverse := by simp [h2]
    simpa using hm
  unfold trimList
  rw [h1, List.reverse_append]
  rw [dropWhile_ws_sandwich w2.reverse core.reverse (by simpa using hw2)
    (Or.inr ⟨d2, ds2, h2, hd2⟩)]
  simp

theorem stripCI_append (p : List Char) :
    ∀ l rest, stripCI p l = some [] → stripCI p (l ++ rest) = some rest := by
  induction p with
  | nil =>
    intro l rest h
    cases l with
    | nil => rfl
    | cons c cs => simp [stripCI] at h
  | cons p ps ih =>
    intro l rest h
    cases l with
    | nil => simp [stripCI] at h
    | cons c cs =>
      simp only [stripCI, List.cons_append] at h ⊢
      by_cases hc : (c.toLower == p) = true
      · rw [if_pos hc] at h
        rw [if_pos hc]
        exact ih cs rest h
      · rw [if_neg hc] at h
        cases h

theorem stripScheme_httpsL (rest : List Char) :
    stripScheme (httpsL ++ rest) = some rest := rfl

theorem stripScheme_httpL (rest : List Char) :
    stripScheme (httpL ++ rest) = some rest := rfl

/-! ### Lemmas about the URL parser model -/

theorem parseHost_canonical (host : List Char) (hne : host ≠ [])
    (hh : ∀ c ∈ host, hostChar c = true) :
    parseHost host = some (host.map Char.toLower) := by
  have hat : '@' ∉ host := not_mem_of_pred hostChar host '@' hh (by decide)
  have hcolon : ∀ c ∈ host, (!(c == ':')) = true := by
    intro c hc
    rw [pred_beq_false hostChar c ':' (hh c hc) (by decide)]
    rfl
  have htake : host.takeWhile (fun c => !(c == ':')) = host :=
    takeWhile_of_all _ host hcolon
  have hdrop : host.dropWhile (fun c => !(c == ':')) = [] :=
    dropWhile_of_all _ host hcolon
  have hemp : host.isEmpty = false := by
    cases host with
    | nil => exact absurd rfl hne
    | cons c cs => rfl
  have hall : host.all hostChar = true := List.all_eq_true.mpr hh
  simp [parseHost, htake, hdrop, hemp, hall, hat]

theorem parseURLL_canonical (sL w1 w2 host tail : List Char)
    (hsch : sL = httpsL ∨ sL = httpL)
    (hw1 : ∀ c ∈ w1, c.isWhitespace = true)
    (hw2 : ∀ c ∈ w2, c.isWhitespace = true)
    (hne : host ≠ []) (hh : ∀ c ∈ host, hostChar c = true)
    (htail : ∀ c ∈ tail, c.isWhitespace = false) :
    parseURLL (w1 ++ (sL ++ host ++ '/' :: tail) ++ w2)
      = some ⟨host.map Char.toLower, (splitPathQuery ('/' :: tail)).1,
              (splitPathQuery ('/' :: tail)).2⟩ := by
  have hschemews : ∀ c ∈ sL, c.isWhitespace = false := by
    rcases hsch with h | h <;> subst h <;> decide
  have hcorews : ∀ c ∈ sL ++ host ++ '/' :: tail, c.isWhitespace = false := by
    intro c hc
    rcases List.mem_append.mp hc with hc | hc
    · rcases List.mem_append.mp hc with hc | hc
      · exact hschemews c hc
      · exact hostChar_not_ws c (hh c hc)
    · rcases List.mem_cons.mp hc with hc | hc
      · subst hc; decide
      · exact htail c hc
  have hcorene : sL ++ host ++ '/' :: tail ≠ [] := by
    rcases hsch with h | h <;> subst h <;> simp [httpsL, httpL]
  have htrim : trimList (w1 ++ (sL ++ host ++ '/' :: tail) ++ w2)
      = sL ++ host ++ '/' :: tail :=
    trimList_sandwich w1 _ w2 hw1 hw2 hcorene hcorews
  have hauthp : ∀ c ∈ host, (!(authEnd c)) = true := by
    intro c hc
    have h1 := pred_beq_false hostChar c '/' (hh c hc) (by decide)
    have h2 := pred_beq_false hostChar c '?' (hh c hc) (by decide)
    have h3 := pred_beq_false hostChar c '#' (hh c hc) (by decide)
    simp [authEnd, h1, h2, h3]
  have hstrip : stripScheme (sL ++ host ++ '/' :: tail) = some (host ++ '/' :: tail) := by
    rcases hsch with h | h <;> subst h
    · rw [List.append_assoc]; exact stripScheme_httpsL _
    · rw [List.append_assoc]; exact stripScheme_httpL _
  have htake : (host ++ '/' :: tail).takeWhile (fun c => !(authEnd c)) = host := by
    rw [takeWhile_append_of_all _ host _ hauthp]
    rw [List.takeWhile_cons_of_neg (by decide)]
    simp
  have hdrop : (host ++ '/' :: tail).dropWhile (fun c => !(authEnd c)) = '/' :: tail := by
    rw [dropWhile_append_of_all _ host _ hauthp]
    exact List.dropWhile_cons_of_neg (by decide)
  simp only [parseURLL, htrim, hstrip, htake, hdrop, parseHost_canonical host hne hh]

theorem splitPathQuery_noquery (id : List Char) (hid : ∀ c ∈ id, idChar c = true) :
    splitPathQuery ('/' :: id) = ('/' :: id, []) := by
  have hp : ∀ c ∈ id, (!(c == '?' || c == '#')) = true := by
    intro c hc
    have h1 := pred_beq_false idChar c '?' (hid c hc) (by decide)
    have h2 := pred_beq_false idChar c '#' (hid c hc) (by decide)
    simp [h1, h2]
  have htake : ('/' :: id).takeWhile (fun c => !(c == '?' || c == '#')) = '/' :: id := by
    rw [List.takeWhile_cons_of_pos (by decide)]
    rw [takeWhile_of_all _ id hp]
  have hdrop : ('/' :: id).dropWhile (fun c => !(c == '?' || c == '#')) = [] := by
    rw [List.dropWhile_cons_of_pos (by decide)]
    exact dropWhile_of_all _ id hp
  simp only [splitPathQuery, htake, hdrop]

theorem splitPathQuery_query (id t : List Char) (hid : ∀ c ∈ id, idChar c = true) :
    splitPathQuery ('/' :: (id ++ '?' :: t))
      = ('/' :: id, t.takeWhile (fun c => !(c == '#'))) := by
  have hp : ∀ c ∈ id, (!(c == '?' || c == '#')) = true := by
    intro c hc
    have h1 := pred_beq_false idChar c '?' (hid c hc) (by decide)
    have h2 := pred_beq_false idChar c '#' (hid c hc) (by decide)
    simp [h1, h2]
  have htake : ('/' :: (id ++ '?' :: t)).takeWhile (fun c => !(c == '?' || c == '#'))
      = '/' :: id := by
    rw [List.takeWhile_cons_of_pos (by decide)]
    rw [takeWhile_append_of_all _ id _ hp]
    rw [List.takeWhile_cons_of_neg (by decide)]
    simp
  have hdrop : ('/' :: (id ++ '?' :: t)).dropWhile (fun c => !(c == '?' || c == '#'))
      = '?' :: t := by
    rw [List.dropWhile_cons_of_pos (by decide)]
    rw [dropWhile_append_of_all _ id _ hp]
    exact List.dropWhile_cons_of_neg (by decide)
  simp only [splitPathQuery, htake, hdrop]

theorem splitPathQuery_watch (id e : List Char) (hid : ∀ c ∈ id, idChar c = true) :
    splitPathQuery ('/' :: (['w', 'a', 't', 'c', 'h'] ++ '?' :: 'v' :: '=' :: (id ++ e)))
      = (['/', 'w', 'a', 't', 'c', 'h'],
         'v' :: '=' :: (id ++ e.takeWhile (fun c => !(c == '#')))) := by
  have hwb : ∀ c ∈ (['w', 'a', 't', 'c', 'h'] : List Char),
      (!(c == '?' || c == '#')) = true := by decide
  have hhash : ∀ c ∈ id, (!(c == '#')) = true := by
    intro c hc
    rw [pred_beq_false idChar c '#' (hid c hc) (by decide)]
    rfl
  have htake : ('/' :: (['w', 'a', 't', 'c', 'h'] ++ '?' :: 'v' :: '=' :: (id ++ e))).takeWhile
      (fun c => !(c == '?' || c == '#')) = '/' :: ['w', 'a', 't', 'c', 'h'] := by
    rw [List.takeWhile_cons_of_pos (by decide)]
    rw [takeWhile_append_of_all _ _ _ hwb]
    rw [List.takeWhile_cons_of_neg (by decide)]
    simp
  have hdrop : ('/' :: (['w', 'a', 't', 'c', 'h'] ++ '?' :: 'v' :: '=' :: (id ++ e))).dropWhile
      (fun c => !(c == '?' || c == '#')) = '?' :: 'v' :: '=' :: (id ++ e) := by
    rw [List.dropWhile_cons_of_pos (by decide)]
    rw [dropWhile_append_of_all _ _ _ hwb]
    exact List.dropWhile_cons_of_neg (by decide)
  have hq : ('v' :: '=' :: (id ++ e)).takeWhile (fun c => !(c == '#'))
      = 'v' :: '=' :: (id ++ e.takeWhile (fun c => !(c == '#'))) := by
    rw [List.takeWhile_cons_of_pos (by decide)]
    rw [List.takeWhile_cons_of_pos (by decide)]
    rw [takeWhile_append_of_all _ id _ hhash]
  simp only [splitPathQuery, htake, hdrop, hq]

theorem splitOnAmp_ne_nil (q : List Char) : splitOnAmp q ≠ [] := by
  induction q with
  | nil => simp [splitOnAmp]
  | cons c q ih =>
    simp only [splitOnAmp, List.foldr_cons] at ih ⊢
    cases hq : q.foldr ampStep [[]] with
    | nil => exact absurd hq ih
    | cons cur rest =>
      simp only [ampStep]
      by_cases hc : (c == '&') = true <;> simp [hc]

theorem foldr_ampStep_no_amp (l : List Char) (cur : List Char) (rest : List (List Char))
    (h : ∀ c ∈ l, (c == '&') = false) :
    l.foldr ampStep (cur :: rest) = (l ++ cur) :: rest := by
  induction l with
  | nil => simp
  | cons c l ih =>
    have hc := h c (List.mem_cons_self _ _)
    have hrest : ∀ x ∈ l, (x == '&') = false := fun x hx => h x (List.mem_cons_of_mem _ hx)
    simp [List.foldr_cons, ih hrest, ampStep, hc]

theorem splitOnAmp_no_amp (l : List Char) (h : ∀ c ∈ l, (c == '&') = false) :
    splitOnAmp l = [l] := by
  have h2 := foldr_ampStep_no_amp l [] [] h
  simpa [splitOnAmp] using h2

theorem splitOnAmp_append_amp (l r : List Char) (h : ∀ c ∈ l, (c == '&') = false) :
    splitOnAmp (l ++ '&' :: r) = l :: splitOnAmp r := by
  have hfold : ('&' :: r).foldr ampStep [[]] = [] :: splitOnAmp r := by
    cases hq : splitOnAmp r with
    | nil => exact absurd hq (splitOnAmp_ne_nil r)
    | cons cur rest =>
      simp only [splitOnAmp] at hq
      simp [List.foldr_cons, hq, ampStep]
  calc splitOnAmp (l ++ '&' :: r)
      = l.foldr ampStep (('&' :: r).foldr ampStep [[]]) := by
        simp [splitOnAmp, List.foldr_append]
    _ = l.foldr ampStep ([] :: splitOnAmp r) := by rw [hfold]
    _ = (l ++ []) :: splitOnAmp r := foldr_ampStep_no_amp l [] _ h
    _ = l :: splitOnAmp r := by simp

theorem vPair_no_amp (id : List Char) (hid : ∀ c ∈ id, idChar c = true) :
    ∀ c ∈ 'v' :: '=' :: id, (c == '&') = false := by
  intro c hc
  rcases List.mem_cons.mp hc with hc | hc
  · subst hc; decide
  rcases List.mem_cons.mp hc with hc | hc
  · subst hc; decide
  · exact pred_beq_false idChar c '&' (hid c hc) (by decide)

theorem getParam_v (id e : List Char) (hid : ∀ c ∈ id, idChar c = true)
    (he : e = [] ∨ ∃ r, e = '&' :: r) :
    getParam ('v' :: '=' :: (id ++ e)) ['v'] = some id := by
  have hnamp := vPair_no_amp id hid
  have htakeEq : ('v' :: '=' :: id).takeWhile (fun c => !(c == '=')) = ['v'] := by
    rw [List.takeWhile_cons_of_pos (by decide)]
    rw [List.takeWhile_cons_of_neg (by decide)]
  have hdropEq : ('v' :: '=' :: id).dropWhile (fun c => !(c == '=')) = '=' :: id := by
    rw [List.dropWhile_cons_of_pos (by decide)]
    exact List.dropWhile_cons_of_neg (by decide)
  rcases he with he | ⟨r, he⟩
  · subst he
    have harg : ('v' :: '=' :: (id ++ ([] : List Char))) = 'v' :: '=' :: id := by simp
    rw [harg]
    have hs : splitOnAmp ('v' :: '=' :: id) = [('v' :: '=' :: id)] :=
      splitOnAmp_no_amp _ hnamp
    simp only [getParam, hs, List.filter_cons, List.filter_nil, List.isEmpty_cons,
      Bool.not_false, if_pos, List.findSome?_cons, htakeEq, hdropEq]
    simp
  · subst he
    have harg : ('v' :: '=' :: (id ++ '&' :: r)) = ('v' :: '=' :: id) ++ '&' :: r := by simp
    rw [harg]
    have hs : splitOnAmp (('v' :: '=' :: id) ++ '&' :: r) = ('v' :: '=' :: id) :: splitOnAmp r :=
      splitOnAmp_append_amp _ r hnamp
    simp only [getParam, hs, List.filter_cons, List.isEmpty_cons, Bool.not_false,
      if_pos, List.findSome?_cons, htakeEq, hdropEq]
    simp

theorem captureId_spec (cs r : List Char) (h : captureId cs = some r) :
    6 ≤ r.length ∧ ∀ c ∈ r, idChar c = true := by
  simp only [captureId] at h
  by_cases hl : (cs.takeWhile idChar).length < 6
  · rw [if_pos hl] at h; cases h
  · rw [if_neg hl] at h
    cases h
    refine ⟨by omega, ?_⟩
    intro c hc
    exact List.mem_takeWhile_imp hc

theorem matchYtAt_spec (cs r : List Char) (h : matchYtAt cs = some r) :
    6 ≤ r.length ∧ ∀ c ∈ r, idChar c = true := by
  unfold matchYtAt at h
  cases hs : stripScheme cs with
  | none => simp [hs] at h
  | some r1 =>
    simp only [hs] at h
    cases h1 : stripCI "youtube.com/watch?v=".toList (skipWww r1) with
    | some r3 =>
      simp only [h1] at h
      exact captureId_spec r3 r h
    | none =>
      simp only [h1] at h
      cases h2 : stripCI "youtu.be/".toList (skipWww r1) with
      | some r3 =>
        simp only [h2] at h
        exact captureId_spec r3 r h
      | none =>
        rw [h2] at h
        exact Option.noConfusion h

theorem ytScan_spec (cs r : List Char) (h : ytScan cs = some r) :
    6 ≤ r.length ∧ ∀ c ∈ r, idChar c = true := by
  induction cs with
  | nil => simp [ytScan] at h
  | cons c rest ih =>
    simp only [ytScan] at h
    cases hm : matchYtAt (c :: rest) with
    | some r2 =>
      simp only [hm] at h
      cases h
      exact matchYtAt_spec _ _ hm
    | none =>
      simp only [hm] at h
      exact ih h

theorem getVideoId_of_parse_none (url : String) (h : parseURL url = none) :
    getVideoId url = none := by
  have h2 : parseURLL url.data = none := h
  simp [getVideoId, getVideoIdL, h2]

theorem getVideoIdL_fallback (url : String) (u : URLParts)
    (h : parseURL url = some u)
    (hhost : containsList youtuBeL u.hostname = false)
    (hv : getParam u.query ['v'] = none ∨ getParam u.query ['v'] = some []) :
    getVideoIdL url.toList = ytScan url.toList := by
  have h2 : parseURLL url.data = some u := h
  rcases hv with hv | hv
  · simp [getVideoIdL, h2, hhost, hv]
  · simp [getVideoIdL, h2, hhost, hv]

theorem stringToList_append (s t : String) : (s ++ t).toList = s.toList ++ t.toList := by
  simp [String.toList]

/-! ### Claim theorems: video-id extraction -/

/-- C6: for every canonical short-link URL (host containing the short-link
    domain, a single-segment path holding the identifier) and every
    canonical long-form URL (`/watch?v=` with the identifier as the first
    query parameter), `getVideoId` returns exactly the identifier,
    regardless of surrounding whitespace, of a short-link query string, or
    of extra query parameters after the `v` pair. -/
theorem extractVideoId_valid_urls :
    (∀ ws1 ws2 sch host id qs : String,
      (sch = "https://" ∨ sch = "http://") →
      ws1.toList.all Char.isWhitespace = true →
      ws2.toList.all Char.isWhitespace = true →
      host.toList ≠ [] →
      host.toList.all hostChar = true →
      containsList youtuBeL (host.toList.map Char.toLower) = true →
      id.toList ≠ [] →
      id.toList.all idChar = true →
      (qs = "" ∨ ∃ t : String, qs = "?" ++ t
          ∧ t.toList.all (fun c => !c.isWhitespace) = true) →
      getVideoId (ws1 ++ sch ++ host ++ "/" ++ id ++ qs ++ ws2) = some id)
    ∧ (∀ ws1 ws2 sch host id extra : String,
      (sch = "https://" ∨ sch = "http://") →
      ws1.toList.all Char.isWhitespace = true →
      ws2.toList.all Char.isWhitespace = true →
      host.toList ≠ [] →
      host.toList.all hostChar = true →
      containsList youtuBeL (host.toList.map Char.toLower) = false →
      id.toList ≠ [] →
      id.toList.all idChar = true →
      (extra = "" ∨ ∃ r : String, (extra = "&" ++ r ∨ extra = "#" ++ r)
          ∧ extra.toList.all (fun c => !c.isWhitespace) = true) →
      getVideoId (ws1 ++ sch ++ host ++ "/watch?v=" ++ id ++ extra ++ ws2) = some id) := by
  constructor
  · intro ws1 ws2 sch host id qs hsch hws1 hws2 hhne hhall hcont hidne hidall hqs
    have hw1 : ∀ c ∈ ws1.toList, c.isWhitespace = true := List.all_eq_true.mp hws1
    have hw2 : ∀ c ∈ ws2.toList, c.isWhitespace = true := List.all_eq_true.mp hws2
    have hh : ∀ c ∈ host.toList, hostChar c = true := List.all_eq_true.mp hhall
    have hid : ∀ c ∈ id.toList, idChar c = true := List.all_eq_true.mp hidall
    have hschL : sch.toList = httpsL ∨ sch.toList = httpL := by
      rcases hsch with h | h
      · subst h; left; decide
      · subst h; right; decide
    rcases hqs with hq0 | ⟨t, hqt, htall⟩
    · subst hq0
      have harg : (ws1 ++ sch ++ host ++ "/" ++ id ++ "" ++ ws2).toList
          = ws1.toList ++ (sch.toList ++ host.toList ++ '/' :: id.toList) ++ ws2.toList := by
        simp [stringToList_append, List.append_assoc,
          show ("/" : String).toList = ['/'] from by decide,
          show ("" : String).toList = ([] : List Char) from by decide]
      have htail : ∀ c ∈ id.toList, c.isWhitespace = false :=
        fun c hc => idChar_not_ws c (hid c hc)
      have hparse := parseURLL_canonical sch.toList ws1.toList ws2.toList host.toList
        id.toList hschL hw1 hw2 hhne hh htail
      have hsplit := splitPathQuery_noquery id.toList hid
      have hgl : getVideoIdL (ws1.toList ++ (sch.toList ++ host.toList ++ '/' :: id.toList)
          ++ ws2.toList) = some id.toList := by
        simp only [getVideoIdL]
        rw [hparse]
        simp only [hsplit, hcont]
        rfl
      have hgv : getVideoId (ws1 ++ sch ++ host ++ "/" ++ id ++ "" ++ ws2)
          = (getVideoIdL ((ws1 ++ sch ++ host ++ "/" ++ id ++ "" ++ ws2).toList)).map
              List.asString := rfl
      rw [hgv, harg, hgl]
      exact congrArg some (String.asString_toList id)
    · subst hqt
      have harg : (ws1 ++ sch ++ host ++ "/" ++ id ++ ("?" ++ t) ++ ws2).toList
          = ws1.toList ++ (sch.toList ++ host.toList
              ++ '/' :: (id.toList ++ '?' :: t.toList)) ++ ws2.toList := by
        simp [stringToList_append, List.append_assoc,
          show ("/" : String).toList = ['/'] from by decide,
          show ("?" : String).toList = ['?'] from by decide]
      have htall2 : ∀ c ∈ t.toList, c.isWhitespace = false := by
        intro c hc
        have h1 := List.all_eq_true.mp htall c hc
        simpa using h1
      have htail : ∀ c ∈ id.toList ++ '?' :: t.toList, c.isWhitespace = false := by
        intro c hc
        rcases List.mem_append.mp hc with hc | hc
        · exact idChar_not_ws c (hid c hc)
        · rcases List.mem_cons.mp hc with hc | hc
          · subst hc; decide
          · exact htall2 c hc
      have hparse := parseURLL_canonical sch.toList ws1.toList ws2.toList host.toList
        (id.toList ++ '?' :: t.toList) hschL hw1 hw2 hhne hh htail
      have hsplit := splitPathQuery_query id.toList t.toList hid
      have hgl : getVideoIdL (ws1.toList ++ (sch.toList ++ host.toList
          ++ '/' :: (id.toList ++ '?' :: t.toList)) ++ ws2.toList) = some id.toList := by
        simp only [getVideoIdL]
        rw [hparse]
        simp only [hsplit, hcont]
        rfl
      have hgv : getVideoId (ws1 ++ sch ++ host ++ "/" ++ id ++ ("?" ++ t) ++ ws2)
          = (getVideoIdL ((ws1 ++ sch ++ host ++ "/" ++ id ++ ("?" ++ t) ++ ws2).toList)).map
              List.asString := rfl
      rw [hgv, harg, hgl]
      exact congrArg some (String.asString_toList id)
  · intro ws1 ws2 sch host id extra hsch hws1 hws2 hhne hhall hcont hidne hidall hextra
    have hw1 : ∀ c ∈ ws1.toList, c.isWhitespace = true := List.all_eq_true.mp hws1
    have hw2 : ∀ c ∈ ws2.toList, c.isWhitespace = true := List.all_eq_true.mp hws2
    have hh : ∀ c ∈ host.toList, hostChar c = true := List.all_eq_true.mp hhall
    have hid : ∀ c ∈ id.toList, idChar c = true := List.all_eq_true.mp hidall
    have hschL : sch.toList = httpsL ∨ sch.toList = httpL := by
      rcases hsch with h | h
      · subst h; left; decide
      · subst h; right; decide
    have hexws : ∀ c ∈ extra.toList, c.isWhitespace = false := by
      rcases hextra with h0 | ⟨r, _, hall⟩
      · subst h0; intro c hc; simp at hc
      · intro c hc
        have h1 := List.all_eq_true.mp hall c hc
        simpa using h1
    have harg : (ws1 ++ sch ++ host ++ "/watch?v=" ++ id ++ extra ++ ws2).toList
        = ws1.toList ++ (sch.toList ++ host.toList
            ++ '/' :: (['w', 'a', 't', 'c', 'h'] ++ '?' :: 'v' :: '='
                :: (id.toList ++ extra.toList))) ++ ws2.toList := by
      simp [stringToList_append, List.append_assoc,
        show ("/watch?v=" : String).toList
          = ['/', 'w', 'a', 't', 'c', 'h', '?', 'v', '='] from by decide]
    have htail : ∀ c ∈ (['w', 'a', 't', 'c', 'h'] : List Char) ++ '?' :: 'v' :: '='
        :: (id.toList ++ extra.toList), c.isWhitespace = false := by
      intro c hc
      rcases List.mem_append.mp hc with hc | hc
      · revert hc
        have hws : ∀ x ∈ (['w', 'a', 't', 'c', 'h'] : List Char), x.isWhitespace = false := by
          decide
        exact hws c
      · rcases List.mem_cons.mp hc with hc | hc
        · subst hc; decide
        rcases List.mem_cons.mp hc with hc | hc
        · subst hc; decide
        rcases List.mem_cons.mp hc with hc | hc
        · subst hc; decide
        rcases List.mem_append.mp hc with hc | hc
        · exact idChar_not_ws c (hid c hc)
        · exact hexws c hc
    have hparse := parseURLL_canonical sch.toList ws1.toList ws2.toList host.toList
      ((['w', 'a', 't', 'c', 'h'] : List Char) ++ '?' :: 'v' :: '='
        :: (id.toList ++ extra.toList)) hschL hw1 hw2 hhne hh htail
    have hsplit := splitPathQuery_watch id.toList extra.toList hid
    have he' : extra.toList.takeWhile (fun c => !(c == '#')) = []
        ∨ ∃ r2, extra.toList.takeWhile (fun c => !(c == '#')) = '&' :: r2 := by
      rcases hextra with h0 | ⟨r, hr, _⟩
      · subst h0; left; rfl
      · rcases hr with hr | hr
        · subst hr
          right
          refine ⟨r.toList.takeWhile (fun c => !(c == '#')), ?_⟩
          have hal : ("&" ++ r).toList = '&' :: r.toList := by
            simp [stringToList_append, show ("&" : String).toList = ['&'] from by decide]
          rw [hal, List.takeWhile_cons_of_pos (by decide)]
        · subst hr
          left
          have hal : ("#" ++ r).toList = '#' :: r.toList := by
            simp [stringToList_append, show ("#" : String).toList = ['#'] from by decide]
          rw [hal]
          exact List.takeWhile_cons_of_neg (by decide)
    have hgp : getParam ('v' :: '='
        :: (id.toList ++ extra.toList.takeWhile (fun c => !(c == '#')))) ['v']
        = some id.toList :=
      getParam_v id.toList _ hid he'
    have hemp : id.toList.isEmpty = false := by
      cases hi : id.toList with
      | nil => exact absurd hi hidne
      | cons a as => rfl
    have hgl : getVideoIdL (ws1.toList ++ (sch.toList ++ host.toList
        ++ '/' :: ((['w', 'a', 't', 'c', 'h'] : List Char) ++ '?' :: 'v' :: '='
          :: (id.toList ++ extra.toList))) ++ ws2.toList) = some id.toList := by
      simp only [getVideoIdL]
      rw [hparse]
      simp only [hsplit, hcont, hgp, hemp]
      rfl
    have hgv : getVideoId (ws1 ++ sch ++ host ++ "/watch?v=" ++ id ++ extra ++ ws2)
        = (getVideoIdL ((ws1 ++ sch ++ host ++ "/watch?v=" ++ id ++ extra
            ++ ws2).toList)).map List.asString := rfl
    rw [hgv, harg, hgl]
    exact congrArg some (String.asString_toList id)

/-- Witness for C6: a concrete short link and a concrete long-form URL with
    an extra query parameter. -/
theorem extractVideoId_valid_urls_witness :
    getVideoId ("" ++ "https://" ++ "youtu.be" ++ "/" ++ "dQw4w9WgXcQ" ++ "" ++ "")
      = some "dQw4w9WgXcQ"
    ∧ getVideoId ("" ++ "https://" ++ "www.youtube.com" ++ "/watch?v=" ++ "dQw4w9WgXcQ"
        ++ "&t=10s" ++ "") = some "dQw4w9WgXcQ" :=
  ⟨extractVideoId_valid_urls.1 "" "" "https://" "youtu.be" "dQw4w9WgXcQ" ""
      (Or.inl rfl) (by decide) (by decide) (by decide) (by decide) (by decide)
      (by decide) (by decide) (Or.inl rfl),
   extractVideoId_valid_urls.2 "" "" "https://" "www.youtube.com" "dQw4w9WgXcQ" "&t=10s"
      (Or.inl rfl) (by decide) (by decide) (by decide) (by decide) (by decide)
      (by decide) (by decide)
      (Or.inr ⟨"t=10s", Or.inl rfl, by decide⟩)⟩

/-- C7 counterexample: on `"x https://youtu.be/abcdef"` URL parsing fails
    and the regex scan over the raw text would capture `"abcdef"`, yet
    `getVideoId` returns nothing — the catch block returns null without
    consulting the regex, refuting "if URL parsing fails ... falls back to
    a regular-expression scan". -/
theorem getVideoId_no_regex_after_parse_fail :
    parseURL "x https://youtu.be/abcdef" = none
    ∧ ytScan "x https://youtu.be/abcdef".toList = some "abcdef".toList
    ∧ getVideoId "x https://youtu.be/abcdef" = none := ⟨rfl, rfl, rfl⟩

/-- C7 amended: the regex fallback runs only when URL parsing succeeds but
    yields no identifier (no short-link host, no nonempty `v` parameter);
    when URL parsing fails `getVideoId` returns nothing without scanning;
    and every capture the scanner returns has at least 6 id characters. -/
theorem getVideoId_regex_fallback :
    (∀ url : String, parseURL url = none → getVideoId url = none)
    ∧ (∀ (url : String) (u : URLParts), parseURL url = some u →
        containsList youtuBeL u.hostname = false →
        (getParam u.query ['v'] = none ∨ getParam u.query ['v'] = some []) →
        getVideoId url = (ytScan url.toList).map List.asString)
    ∧ (∀ cs r : List Char, ytScan cs = some r →
        6 ≤ r.length ∧ ∀ c ∈ r, idChar c = true) := by
  refine ⟨getVideoId_of_parse_none, ?_, ytScan_spec⟩
  intro url u h hhost hv
  have h2 : getVideoIdL url.toList = ytScan url.toList := getVideoIdL_fallback url u h hhost hv
  show (getVideoIdL url.toList).map List.asString = (ytScan url.toList).map List.asString
  rw [h2]

/-- Witness for the C7 amended theorem: a parseable non-video URL whose
    query embeds a short link, found by the regex fallback. -/
theorem getVideoId_regex_fallback_witness :
    getVideoId "https://example.com/go?u=https://youtu.be/abcdef"
      = (ytScan "https://example.com/go?u=https://youtu.be/abcdef".toList).map
          List.asString :=
  getVideoId_regex_fallback.2.1 "https://example.com/go?u=https://youtu.be/abcdef"
    ⟨"example.com".toList, "/go".toList, "u=https://youtu.be/abcdef".toList⟩
    rfl (by decide) (Or.inl rfl)

/-- C8: `getVideoId` returns nothing on the empty string, on every input
    whose URL parse fails, and on every parseable non-video URL with no
    `v` parameter and no regex match; being a total function into `Option`,
    the embedding never throws (the catch block swallows parse errors). -/
theorem getVideoId_none_on_malformed :
    getVideoId "" = none
    ∧ (∀ url : String, parseURL url = none → getVideoId url = none)
    ∧ (∀ (url : String) (u : URLParts), parseURL url = some u →
        containsList youtuBeL u.hostname = false →
        (getParam u.query ['v'] = none ∨ getParam u.query ['v'] = some []) →
        ytScan url.toList = none →
        getVideoId url = none) := by
  refine ⟨rfl, getVideoId_of_parse_none, ?_⟩
  intro url u h hhost hv hscan
  have h2 : getVideoIdL url.toList = ytScan url.toList := getVideoIdL_fallback url u h hhost hv
  show (getVideoIdL url.toList).map List.asString = none
  rw [h2, hscan]
  rfl

/-- Witness for C8 at a malformed input and a parseable non-video URL. -/
theorem getVideoId_none_on_malformed_witness :
    getVideoId "notaurl" = none
    ∧ getVideoId "https://example.com/page?x=1" = none :=
  ⟨getVideoId_none_on_malformed.2.1 "notaurl" rfl,
   getVideoId_none_on_malformed.2.2 "https://example.com/page?x=1"
     ⟨"example.com".toList, "/page".toList, "x=1".toList⟩ rfl (by decide)
     (Or.inl rfl) rfl⟩
